import Mathlib

/-!
# Verification of the brush-render forward/backward splat pipeline

Shallow embedding of `crates/brush-render/src/render.rs` (the core
differentiable Gaussian-splat rasterizer orchestration) together with
spec-modelled versions of the generic primitives (radix sort, prefix sum,
GPU kernels) that the crate imports from sibling crates not present in the
source tree.  Machine integers are modelled as `Nat` with explicit bounds
where overflow matters; fallible code returns `Option`.
-/

namespace BrushRender

/-! ## Spherical-harmonic degree / coefficient count (render.rs lines 40-53) -/

/-- `sh_coeffs_for_degree` from render.rs: `(degree + 1).pow(2)`. -/
def sh_coeffs_for_degree (degree : Nat) : Nat :=
  (degree + 1) ^ 2

/-- `sh_degree_from_coeffs` from render.rs: the match on 1/4/9/16/25; the
Rust function panics on any other count, modelled as `none`. -/
def sh_degree_from_coeffs (coeffs_per_channel : Nat) : Option Nat :=
  match coeffs_per_channel with
  | 1 => some 0
  | 4 => some 1
  | 9 => some 2
  | 16 => some 3
  | 25 => some 4
  | _ => none

/-! ## Tile-sort key width (render.rs line 227)

`let bits = u32::BITS - num_tiles.leading_zeros();`
`u32::leading_zeros n` is `32 - bitlength n` for `n < 2^32`
(with `bitlength 0 = 0`). -/

/-- Bit length of a natural number: `0` for `0`, `log2 n + 1` otherwise.
This is the number of binary digits of `n`, matching how
`u32::leading_zeros` counts: `leading_zeros n = 32 - bitlength n`. -/
def bitlength (n : Nat) : Nat :=
  if n = 0 then 0 else Nat.log2 n + 1

/-- `u32::leading_zeros` modelled on `Nat` (faithful for `n < 2^32`). -/
def u32_leading_zeros (n : Nat) : Nat :=
  32 - bitlength n

/-- The key bit-width used by the tile-id radix sort in `render_forward`:
`u32::BITS - num_tiles.leading_zeros()`. -/
def tile_sort_bits (num_tiles : Nat) : Nat :=
  32 - u32_leading_zeros num_tiles

/-! ## Intersection-buffer capacity (render.rs lines 204-206)

`let max_intersects = num_points.saturating_mul(num_tiles as usize).min(128 * 65535);`
`usize` is 64-bit on the supported targets; `saturating_mul` clamps at
`2^64 - 1`. -/

/-- `usize::saturating_mul` modelled on `Nat` (faithful for inputs `< 2^64`). -/
def usize_saturating_mul (a b : Nat) : Nat :=
  min (a * b) (2 ^ 64 - 1)

/-- `max_intersects` from `render_forward`. -/
def max_intersects (num_points num_tiles : Nat) : Nat :=
  min (usize_saturating_mul num_points num_tiles) (128 * 65535)

/-! ## Intersection buffer writes (spec-modelled tile mapper)

Modelled from the spec: the `MapGaussiansToIntersect` kernel (WGSL source not
in the tree).  §4.5: "For each visible splat, for each tile it overlaps ...
emit (tile_id, compact_id) at `offset[compact_id] + local_counter`. ...
entries beyond capacity are dropped rather than erroring."  A GPU buffer
write at an index at or beyond the buffer length is discarded by the bounds
check; `List.set` has exactly this semantics (out-of-range `set` is the
identity).  `entries` lists the attempted writes as
`(intersection_index, (tile_id, compact_id))`; `buf` is the intersection
buffer, allocated with `max_intersects` elements. -/
def map_gaussians_to_intersect (buf : List (Nat × Nat))
    (entries : List (Nat × Nat × Nat)) : List (Nat × Nat) :=
  entries.foldl (fun b e => b.set e.1 e.2) buf

/-- The intersection-expansion stage of `render_forward` as the caller sees
it: it returns the written buffer and has no error branch for overflow
(the Rust function's return type cannot signal one). -/
def intersect_stage (buf : List (Nat × Nat)) (entries : List (Nat × Nat × Nat)) :
    Except String (List (Nat × Nat)) :=
  Except.ok (map_gaussians_to_intersect buf entries)

/-! ## Radix sort (spec-modelled) and the depth sort stage -/

/-- Key bit `b` of a (key, payload) pair is clear. -/
def bit_is_zero (b : Nat) (p : Nat × Nat) : Bool :=
  p.1 / 2 ^ b % 2 = 0

/-- One stable binary bucket pass of a least-significant-digit radix sort:
the pairs whose key has bit `b` clear, in order, followed by the pairs whose
key has bit `b` set, in order. -/
def radix_pass_bit (b : Nat) (l : List (Nat × Nat)) : List (Nat × Nat) :=
  l.filter (bit_is_zero b) ++ l.filter (fun p => !bit_is_zero b p)

/-- LSD radix sort with `k` remaining passes, the next pass on bit `b`. -/
def radix_sort_aux : Nat → Nat → List (Nat × Nat) → List (Nat × Nat)
  | 0, _, l => l
  | k + 1, b, l => radix_sort_aux k (b + 1) (radix_pass_bit b l)

/-- Modelled from the spec: `radix_argsort` from the brush-sort crate (not
in the source tree).  §4.2: sorts (depth-key, global_id) pairs ascending by
key using a fixed-width radix sort; a radix sort processes the fixed-width
key digit by digit with stable bucket passes, least-significant digit
first.  Keys are the positive-float-as-u32 bit patterns, modelled as
naturals below `2^bits`. -/
def radix_argsort (bits : Nat) (l : List (Nat × Nat)) : List (Nat × Nat) :=
  radix_sort_aux bits 0 l

/-- render.rs lines 151-158 (DepthSort): sort the first `num_visible`
(depth-key, global_id) pairs ascending over all 32 key bits, producing the
compact-id → global-id permutation. -/
def depth_sort (depths gids : List Nat) (num_visible : Nat) : List (Nat × Nat) :=
  radix_argsort 32 ((depths.zip gids).take num_visible)

/-- The keys of a (key, payload) list are sorted when reduced modulo `m`. -/
def SortedModKeys (m : Nat) (l : List (Nat × Nat)) : Prop :=
  l.Pairwise (fun p q => p.1 % m ≤ q.1 % m)

/-! ## Prefix sum (spec-modelled) and the intersection count -/

/-- Helper for `prefix_sum`: exclusive scan with a running accumulator. -/
def prefix_sum_from (acc : Nat) : List Nat → List Nat
  | [] => []
  | x :: xs => acc :: prefix_sum_from (acc + x) xs

/-- Modelled from the spec: `prefix_sum` from the brush-prefix-sum crate (not
in the source tree).  §4.4 "Prefix Summer (generic exclusive scan)": entry
`i` of the output is the sum of the inputs strictly before `i`. -/
def prefix_sum (l : List Nat) : List Nat :=
  prefix_sum_from 0 l

/-- render.rs lines 191-192: the intersection count used to size and drive
the tile sort and binning,
`num_intersections = int_slice(cum_tiles_hit, num_points-1..num_points)` —
the last element of the scanned tile-hit-count array. -/
def num_intersections (counts : List Nat) : Nat :=
  (prefix_sum counts).getD (counts.length - 1) 0

/-! ## Forward entry validation and dispatch order (render.rs lines 55-160) -/

/-- The shapes of the five primitive tensors handed to `render_forward`,
together with the target image size and a flag recording whether the camera
argument is well-formed (finite transform, positive focal lengths).  The
camera flag exists to express claims about camera validation; `render_forward`
itself never reads it, mirroring the source, which performs no camera check. -/
structure ForwardInputs where
  means : List Nat
  logScales : List Nat
  quats : List Nat
  shCoeffs : List Nat
  rawOpacities : List Nat
  imgW : Nat
  imgH : Nat
  cameraWellFormed : Bool
  deriving DecidableEq

/-- The SH coefficient count per channel read by `render_forward` line 100:
`sh_coeffs.shape.dims[1]`. -/
def sh_coeff_count (inp : ForwardInputs) : Nat :=
  inp.shCoeffs.getD 1 0

/-- Modelled from the spec: the `DimCheck` helper (dim_check.rs is not in
the source tree); from its use at render.rs lines 74-79 it verifies
`means : [D, 3]`, `log_scales : [D, 3]`, `quats : [D, 4]`,
`sh_coeffs : [D, C, 3]`, `raw_opacities : [D]` with the wildcard `D`
unified across all arguments and `C` free. -/
def dim_check (inp : ForwardInputs) : Bool :=
  match inp.means, inp.logScales, inp.quats, inp.shCoeffs, inp.rawOpacities with
  | [d1, 3], [d2, 3], [d3, 4], [d4, _, 3], [d5] =>
      d1 == d2 && d1 == d3 && d1 == d4 && d1 == d5
  | _, _, _, _, _ => false

/-- An observable step of `render_forward`: either an abort (panic) during
host-side validation, or a GPU dispatch submitted to the queue. -/
inductive FwdEvent
  | fail
  | dispatch (kernel : String)
  deriving DecidableEq

/-- The event trace of `render_forward` in source order: the dimension check
(lines 74-79), then `sh_degree_from_coeffs` (line 100, panics on an invalid
count), then the unconditional GPU dispatch sequence starting with
`ProjectSplats` (line 127).  No check of the primitive count, the image
area, or the camera precedes the dispatches. -/
def render_forward_events (inp : ForwardInputs) : List FwdEvent :=
  if dim_check inp = false then [FwdEvent.fail]
  else
    match sh_degree_from_coeffs (sh_coeff_count inp) with
    | none => [FwdEvent.fail]
    | some _ =>
        [FwdEvent.dispatch "ProjectSplats",
         FwdEvent.dispatch "DepthSort",
         FwdEvent.dispatch "ProjectVisible",
         FwdEvent.dispatch "PrefixSum",
         FwdEvent.dispatch "MapGaussiansToIntersect",
         FwdEvent.dispatch "TileSort",
         FwdEvent.dispatch "GetTileBinEdges",
         FwdEvent.dispatch "Rasterize"]

/-- The call aborted before submitting any GPU work: the trace fails before
its first dispatch. -/
def fails_before_dispatch (evs : List FwdEvent) : Bool :=
  match evs with
  | FwdEvent.fail :: _ => true
  | _ => false

/-- An invalid configuration in the sense of the spec (§7): zero primitives,
zero-area image, SH-coefficient count without a matching degree, or a
malformed camera. -/
def invalid_config (inp : ForwardInputs) : Prop :=
  inp.means.getD 0 0 = 0 ∨ inp.imgW * inp.imgH = 0 ∨
    sh_degree_from_coeffs (sh_coeff_count inp) = none ∨
    inp.cameraWellFormed = false

/-! ## Rasterize bindings and the aux bundle (render.rs lines 269-322) -/

/-- The device buffers of the forward pass that the rasterize stage and the
returned aux bundle refer to. -/
inductive RenderBuffer
  | uniforms
  | compactGidFromIsect
  | tileBins
  | projectedSplats
  | outImg
  | finalIndex
  | numVisible
  | numIntersections
  | cumTilesHit
  | globalFromCompactGid
  deriving DecidableEq

/-- render.rs lines 285-299: the bindings passed to the `Rasterize` kernel.
`final_index` is pushed onto the handle list only when `raster_u32` is
false. -/
def rasterize_bindings (raster_u32 : Bool) : List RenderBuffer :=
  let handles := [RenderBuffer.uniforms, RenderBuffer.compactGidFromIsect,
    RenderBuffer.tileBins, RenderBuffer.projectedSplats, RenderBuffer.outImg]
  if raster_u32 then handles else handles ++ [RenderBuffer.finalIndex]

/-- Modelled from the spec: the buffers the rasterize dispatch writes.  §4.8:
the forward rasterizer writes the output image, and records the terminal
splat index only in the differentiable (float) mode; a kernel cannot touch a
buffer that is not bound to it. -/
def rasterize_writes (raster_u32 : Bool) : List RenderBuffer :=
  if raster_u32 then [RenderBuffer.outImg]
  else [RenderBuffer.outImg, RenderBuffer.finalIndex]

/-- render.rs lines 309-322: the fields of the returned `RenderAux` bundle,
which includes `final_index` in both output modes. -/
def render_aux_buffers : List RenderBuffer :=
  [RenderBuffer.uniforms, RenderBuffer.numVisible, RenderBuffer.numIntersections,
   RenderBuffer.tileBins, RenderBuffer.cumTilesHit, RenderBuffer.projectedSplats,
   RenderBuffer.finalIndex, RenderBuffer.compactGidFromIsect,
   RenderBuffer.globalFromCompactGid]

/-! ## Backward gradient accumulation (render.rs lines 496-594) -/

/-- Modelled from the spec: the backward kernels (`RasterizeBackwards`,
`GatherGrads`, `ProjectBackwards`; WGSL sources not in the tree) atomically
add gradient contributions into a dense buffer that render.rs allocates with
`float_zeros` of leading dimension `num_points` (lines 505-507, 539-547,
573-575).  §4.9-4.10: contributions exist only for splats touched by the
forward pass.  `updates` is the multiset of (global id, contribution)
additions performed by the kernels. -/
def accumulate_grads (num_points : Nat) (updates : List (Nat × Int)) : List Int :=
  updates.foldl (fun g u => g.set u.1 (g.getD u.1 0 + u.2))
    (List.replicate num_points 0)

/-! ## The two backend implementations of `render_splats` (render.rs 325-463) -/

/-- burn's autodiff tensor, modelled: the inner primary-backend value plus
the tracking flag.  `into_primitive().tensor()` retrieves `value`;
`from_inner` and `prep.finish` wrap a value without changing it (the burn
library contract for a registered backward op). -/
structure ADTensor (α : Type) where
  value : α
  requiresGrad : Bool

/-- render.rs lines 325-350: the primary backend's `render_splats` hands its
tensor arguments straight to `render_forward` (ignoring `_xy_dummy`) and
returns the image and aux bundle unchanged.  `render_forward` is a parameter
so the statement covers every forward implementation. -/
def render_splats_primary {Cam Img Aux T : Type}
    (render_forward : Cam → Nat × Nat → T → T → T → T → T → Bool → Img × Aux)
    (camera : Cam) (img_size : Nat × Nat)
    (means _xy_dummy log_scales quats sh_coeffs raw_opacity : T)
    (render_u32 : Bool) : Img × Aux :=
  render_forward camera img_size means log_scales quats sh_coeffs raw_opacity
    render_u32

/-- render.rs lines 366-462: the autodiff backend's `render_splats` strips
the autodiff wrappers off every argument, runs the identical
`render_forward`, and wraps the image for gradient tracking: when any input
is tracked it checkpoints state and attaches the backward step
(`prep.finish(state, out_img)`), otherwise it registers nothing
(`prep.finish(out_img)`); either way the image value is returned as
computed. -/
def render_splats_autodiff {Cam Img Aux T : Type}
    (render_forward : Cam → Nat × Nat → T → T → T → T → T → Bool → Img × Aux)
    (camera : Cam) (img_size : Nat × Nat)
    (means _xy_dummy log_scales quats sh_coeffs raw_opacity : ADTensor T)
    (render_u32 : Bool) (tracked : Bool) : ADTensor Img × Aux :=
  let res := render_forward camera img_size means.value log_scales.value
    quats.value sh_coeffs.value raw_opacity.value render_u32
  if tracked then ({ value := res.1, requiresGrad := true }, res.2)
  else ({ value := res.1, requiresGrad := false }, res.2)

end BrushRender

namespace BrushRender

/-! ### Theorems: C9 (SH round trip) and groundwork checks -/

/-- C9: for every degree `d ∈ {0,1,2,3,4}`, `sh_coeffs_for_degree d = (d+1)^2`
(the counts 1/4/9/16/25) and `sh_degree_from_coeffs` inverts it. -/
theorem sh_degree_roundtrip (d : Nat) (h : d ≤ 4) :
    sh_coeffs_for_degree d = (d + 1) ^ 2 ∧
    sh_coeffs_for_degree d ∈ ([1, 4, 9, 16, 25] : List Nat) ∧
    sh_degree_from_coeffs (sh_coeffs_for_degree d) = some d := by
  interval_cases d <;> simp [sh_coeffs_for_degree, sh_degree_from_coeffs]

/-- Witness for `sh_degree_roundtrip` at `d = 3`. -/
theorem sh_degree_roundtrip_witness :
    (3 : Nat) ≤ 4 ∧
      (sh_coeffs_for_degree 3 = (3 + 1) ^ 2 ∧
        sh_coeffs_for_degree 3 ∈ ([1, 4, 9, 16, 25] : List Nat) ∧
        sh_degree_from_coeffs (sh_coeffs_for_degree 3) = some 3) :=
  ⟨by decide, sh_degree_roundtrip 3 (by decide)⟩

/-! ### Theorems: C7 (tile-sort key width) -/

/-- C7 counterexample: with one tile (any image no larger than one tile),
`u32::BITS - num_tiles.leading_zeros()` is `1`, while
`⌈log2 tile_count⌉ = Nat.clog 2 1 = 0`; at four tiles (e.g. a 32×32 image
with 16-pixel tiles) the code uses `3` bits, while `⌈log2 4⌉ = 2`.  So the
second radix sort does not run over exactly `⌈log2 tile_count⌉` bits. -/
theorem tile_sort_bits_ne_clog :
    tile_sort_bits 1 = 1 ∧ Nat.clog 2 1 = 0 ∧
    tile_sort_bits 4 = 3 ∧ Nat.clog 2 4 = 2 ∧
    ¬ (tile_sort_bits 1 = Nat.clog 2 1 ∧ tile_sort_bits 4 = Nat.clog 2 4) := by
  have e1 : tile_sort_bits 1 = 1 := by
    simp [tile_sort_bits, u32_leading_zeros, bitlength, Nat.log2]
  have e4 : tile_sort_bits 4 = 3 := by
    simp [tile_sort_bits, u32_leading_zeros, bitlength, Nat.log2]
  have c1 : Nat.clog 2 1 = 0 := by simp [Nat.clog]
  have c4 : Nat.clog 2 4 = 2 := by simp [Nat.clog]
  refine ⟨e1, c1, e4, c4, ?_⟩
  intro h
  rw [e1, c1] at h
  exact absurd h.1 (by decide)

/-- C7 amended: the tile-id radix sort runs over exactly
`bitlength tile_count = ⌊log2 tile_count⌋ + 1` key bits (the number of
binary digits of the tile count, i.e. `⌈log2 (tile_count + 1)⌉`), for every
positive tile count representable in a `u32`. -/
theorem tile_sort_bits_eq_bitlength (n : Nat) (h1 : 1 ≤ n) (h2 : n < 2 ^ 32) :
    tile_sort_bits n = Nat.log2 n + 1 ∧ tile_sort_bits n = bitlength n := by
  have hn : n ≠ 0 := Nat.one_le_iff_ne_zero.mp h1
  have hlog : Nat.log2 n < 32 := (Nat.log2_lt hn (k := 32)).mpr h2
  have hbl : bitlength n = Nat.log2 n + 1 := by
    simp [bitlength, hn]
  constructor
  · simp only [tile_sort_bits, u32_leading_zeros, hbl]
    omega
  · simp only [tile_sort_bits, u32_leading_zeros, hbl]
    omega

/-- Witness for `tile_sort_bits_eq_bitlength` at `n = 4` tiles. -/
theorem tile_sort_bits_eq_bitlength_witness :
    ((1 : Nat) ≤ 4 ∧ 4 < 2 ^ 32) ∧
      (tile_sort_bits 4 = Nat.log2 4 + 1 ∧ tile_sort_bits 4 = bitlength 4) :=
  ⟨⟨by decide, by norm_num⟩, tile_sort_bits_eq_bitlength 4 (by decide) (by norm_num)⟩

/-! ### Theorems: C3 (intersection-buffer capacity and silent truncation) -/

/-- Folding bounds-checked writes never changes the buffer length. -/
theorem map_gaussians_length (buf : List (Nat × Nat))
    (entries : List (Nat × Nat × Nat)) :
    (map_gaussians_to_intersect buf entries).length = buf.length := by
  induction entries generalizing buf with
  | nil => rfl
  | cons e rest ih =>
      simp only [map_gaussians_to_intersect, List.foldl_cons] at *
      rw [ih]
      simp

/-- Writes at indices at or beyond the buffer length are exactly the dropped
ones: the result only depends on the in-range writes. -/
theorem map_gaussians_drops_overflow (buf : List (Nat × Nat))
    (entries : List (Nat × Nat × Nat)) :
    map_gaussians_to_intersect buf entries =
      map_gaussians_to_intersect buf
        (entries.filter (fun e => e.1 < buf.length)) := by
  induction entries generalizing buf with
  | nil => rfl
  | cons e rest ih =>
      by_cases h : e.1 < buf.length
      · have hf : (e :: rest).filter (fun e => e.1 < buf.length) =
            e :: rest.filter (fun e => e.1 < buf.length) := by
          simp [List.filter_cons, h]
        rw [hf]
        simp only [map_gaussians_to_intersect, List.foldl_cons]
        have hlen : (buf.set e.1 e.2).length = buf.length := by simp
        have := ih (buf.set e.1 e.2)
        simp only [map_gaussians_to_intersect] at this
        rw [this, hlen]
      · have hf : (e :: rest).filter (fun e => e.1 < buf.length) =
            rest.filter (fun e => e.1 < buf.length) := by
          simp [List.filter_cons, h]
        rw [hf]
        simp only [map_gaussians_to_intersect, List.foldl_cons]
        rw [List.set_eq_of_length_le (Nat.le_of_not_lt h)]
        exact ih buf

/-- C3: the intersection buffer capacity is
`num_points * num_tiles` clamped to `128 * 65535` (`saturating_mul` never
saturates for counts below `2^32`); with a buffer of that capacity, writes
at indices `≥` capacity are silently dropped (the result equals the result
of just the in-range writes, and the buffer length stays at capacity), and
the stage returns normally — `Except.ok`, never an error. -/
theorem intersection_capacity_truncation (num_points num_tiles : Nat)
    (hp : num_points < 2 ^ 32) (ht : num_tiles < 2 ^ 32)
    (buf : List (Nat × Nat)) (entries : List (Nat × Nat × Nat))
    (hbuf : buf.length = max_intersects num_points num_tiles) :
    max_intersects num_points num_tiles =
        min (num_points * num_tiles) (128 * 65535) ∧
      (map_gaussians_to_intersect buf entries).length =
        max_intersects num_points num_tiles ∧
      map_gaussians_to_intersect buf entries =
        map_gaussians_to_intersect buf
          (entries.filter (fun e => e.1 < max_intersects num_points num_tiles)) ∧
      intersect_stage buf entries =
        Except.ok (map_gaussians_to_intersect buf entries) := by
  have hcap : max_intersects num_points num_tiles =
      min (num_points * num_tiles) (128 * 65535) := by
    have hmul : num_points * num_tiles ≤ 2 ^ 64 - 1 := by
      have h1 : num_points ≤ 2 ^ 32 - 1 := by omega
      have h2 : num_tiles ≤ 2 ^ 32 - 1 := by
        omega
      calc num_points * num_tiles ≤ (2 ^ 32 - 1) * (2 ^ 32 - 1) :=
            Nat.mul_le_mul h1 h2
        _ ≤ 2 ^ 64 - 1 := by norm_num
    simp [max_intersects, usize_saturating_mul, Nat.min_eq_left hmul]
  refine ⟨hcap, ?_, ?_, rfl⟩
  · rw [map_gaussians_length, hbuf]
  · rw [← hbuf]
    exact map_gaussians_drops_overflow buf entries

/-! ### Theorems: C1 (depth-sort postcondition) -/

/-- Splitting a remainder modulo `2 * t` into the bit at weight `t` and the
remainder modulo `t`. -/
theorem mod_two_mul_split (x t : Nat) (ht : 0 < t) :
    x % (2 * t) = x / t % 2 * t + x % t := by
  have hq : x / t = 2 * (x / t / 2) + x / t % 2 := (Nat.div_add_mod (x / t) 2).symm
  have hx : x = 2 * t * (x / t / 2) + (x / t % 2 * t + x % t) := by
    calc x = t * (x / t) + x % t := (Nat.div_add_mod x t).symm
      _ = t * (2 * (x / t / 2) + x / t % 2) + x % t := by rw [← hq]
      _ = 2 * t * (x / t / 2) + (x / t % 2 * t + x % t) := by ring
  have hr1 : x % t < t := Nat.mod_lt _ ht
  have hr2 : x / t % 2 ≤ 1 := by omega
  conv_lhs => rw [hx]
  rw [Nat.mul_add_mod]
  exact Nat.mod_eq_of_lt (by nlinarith)

/-- A bucket pass is a permutation of its input. -/
theorem radix_pass_bit_perm (b : Nat) (l : List (Nat × Nat)) :
    List.Perm (radix_pass_bit b l) l :=
  List.filter_append_perm (bit_is_zero b) l

/-- The whole radix sort is a permutation of its input. -/
theorem radix_sort_aux_perm (k : Nat) :
    ∀ (b : Nat) (l : List (Nat × Nat)), List.Perm (radix_sort_aux k b l) l := by
  induction k with
  | zero => exact fun b l => List.Perm.refl l
  | succ k ih =>
      intro b l
      exact (ih (b + 1) (radix_pass_bit b l)).trans (radix_pass_bit_perm b l)

/-- Every list is sorted modulo `1`. -/
theorem sortedModKeys_one (l : List (Nat × Nat)) : SortedModKeys 1 l := by
  induction l with
  | nil => exact List.Pairwise.nil
  | cons x xs ih => exact List.Pairwise.cons (fun y _ => by omega) ih

/-- The radix-sort invariant: a stable bucket pass on bit `b` of a list
sorted modulo `2^b` yields a list sorted modulo `2^(b+1)`. -/
theorem radix_pass_bit_sorted (b : Nat) (l : List (Nat × Nat))
    (h : SortedModKeys (2 ^ b) l) :
    SortedModKeys (2 ^ (b + 1)) (radix_pass_bit b l) := by
  have ht : 0 < 2 ^ b := Nat.pos_pow_of_pos b (by norm_num)
  have hsplit : ∀ x : Nat, x % 2 ^ (b + 1) = x / 2 ^ b % 2 * 2 ^ b + x % 2 ^ b := by
    intro x
    rw [pow_succ, Nat.mul_comm]
    exact mod_two_mul_split x (2 ^ b) ht
  rw [SortedModKeys, radix_pass_bit, List.pairwise_append]
  have hz := h.filter (bit_is_zero b)
  have ho := h.filter (fun p => !bit_is_zero b p)
  refine ⟨?_, ?_, ?_⟩
  · refine hz.imp_of_mem ?_
    intro p q hp hq hpq
    have hp0 : p.1 / 2 ^ b % 2 = 0 := by
      have := List.of_mem_filter hp
      simpa [bit_is_zero] using this
    have hq0 : q.1 / 2 ^ b % 2 = 0 := by
      have := List.of_mem_filter hq
      simpa [bit_is_zero] using this
    rw [hsplit p.1, hsplit q.1, hp0, hq0]
    simpa using hpq
  · refine ho.imp_of_mem ?_
    intro p q hp hq hpq
    have hp1 : p.1 / 2 ^ b % 2 = 1 := by
      have := List.of_mem_filter hp
      simp [bit_is_zero] at this
      omega
    have hq1 : q.1 / 2 ^ b % 2 = 1 := by
      have := List.of_mem_filter hq
      simp [bit_is_zero] at this
      omega
    rw [hsplit p.1, hsplit q.1, hp1, hq1]
    simpa using hpq
  · intro p hp q hq
    have hp0 : p.1 / 2 ^ b % 2 = 0 := by
      have := List.of_mem_filter hp
      simpa [bit_is_zero] using this
    have hq1 : q.1 / 2 ^ b % 2 = 1 := by
      have := List.of_mem_filter hq
      simp [bit_is_zero] at this
      omega
    rw [hsplit p.1, hsplit q.1, hp0, hq1]
    have hplt : p.1 % 2 ^ b < 2 ^ b := Nat.mod_lt _ ht
    omega

/-- After `k` passes starting at bit `b` of a list sorted modulo `2^b`, the
result is sorted modulo `2^(b+k)`. -/
theorem radix_sort_aux_sorted (k : Nat) :
    ∀ (b : Nat) (l : List (Nat × Nat)), SortedModKeys (2 ^ b) l →
      SortedModKeys (2 ^ (b + k)) (radix_sort_aux k b l) := by
  induction k with
  | zero => intro b l h; simpa using h
  | succ k ih =>
      intro b l h
      have h1 := radix_pass_bit_sorted b l h
      have h2 := ih (b + 1) (radix_pass_bit b l) h1
      rw [show b + 1 + k = b + (k + 1) by omega] at h2
      exact h2

/-- A 32-bit radix argsort of pairs whose keys fit in 32 bits is sorted
ascending by key. -/
theorem radix_argsort_sorted (l : List (Nat × Nat))
    (hkeys : ∀ p ∈ l, p.1 < 2 ^ 32) :
    (radix_argsort 32 l).Pairwise (fun p q => p.1 ≤ q.1) := by
  have h0 : SortedModKeys (2 ^ 0) l := by
    simpa using sortedModKeys_one l
  have hs := radix_sort_aux_sorted 32 0 l h0
  have hperm := radix_sort_aux_perm 32 0 l
  rw [show (0 + 32 : Nat) = 32 by norm_num] at hs
  refine hs.imp_of_mem ?_
  intro p q hp hq hpq
  have hp32 : p.1 < 2 ^ 32 := hkeys p (hperm.mem_iff.mp hp)
  have hq32 : q.1 < 2 ^ 32 := hkeys q (hperm.mem_iff.mp hq)
  rwa [Nat.mod_eq_of_lt hp32, Nat.mod_eq_of_lt hq32] at hpq

/-- C1: after the visibility sort of the forward pass, for every pair of
compact ids `i < j` (both below `num_visible`), the 32-bit depth key of the
splat at compact id `i` is at most the depth key at compact id `j`
(ascending float-as-u32 order, valid because culling keeps depths
positive), and the sorted (depth, global_id) pairs are a permutation of
the visible input pairs — the compact-id → global-id permutation. -/
theorem depth_sort_postcondition (depths gids : List Nat) (num_visible : Nat)
    (hkeys : ∀ d ∈ depths, d < 2 ^ 32) :
    List.Perm (depth_sort depths gids num_visible)
        ((depths.zip gids).take num_visible) ∧
      ∀ (i j : Fin (depth_sort depths gids num_visible).length), i < j →
        ((depth_sort depths gids num_visible).get i).1 ≤
          ((depth_sort depths gids num_visible).get j).1 := by
  constructor
  · exact radix_sort_aux_perm 32 0 _
  · have hk : ∀ p ∈ (depths.zip gids).take num_visible, p.1 < 2 ^ 32 := by
      intro p hp
      have hmem : (p.1, p.2) ∈ depths.zip gids := by
        simpa using List.mem_of_mem_take hp
      exact hkeys p.1 (List.of_mem_zip hmem).1
    exact fun i j hij =>
      List.pairwise_iff_get.mp (radix_argsort_sorted _ hk) i j hij

/-- Witness for `depth_sort_postcondition` on three visible splats with
depth keys `3, 1, 2` and global ids `7, 8, 9`. -/
theorem depth_sort_postcondition_witness :
    (∀ d ∈ ([3, 1, 2] : List Nat), d < 2 ^ 32) ∧
      (List.Perm (depth_sort [3, 1, 2] [7, 8, 9] 3)
          ((([3, 1, 2] : List Nat).zip [7, 8, 9]).take 3) ∧
        ∀ (i j : Fin (depth_sort [3, 1, 2] [7, 8, 9] 3).length), i < j →
          ((depth_sort [3, 1, 2] [7, 8, 9] 3).get i).1 ≤
            ((depth_sort [3, 1, 2] [7, 8, 9] 3).get j).1) :=
  ⟨by decide, depth_sort_postcondition [3, 1, 2] [7, 8, 9] 3 (by decide)⟩

/-! ### Theorems: C2 (intersection count vs. prefix sum) -/

/-- Last element of an exclusive scan started at `acc`: `acc` plus the sum of
all inputs except the last one. -/
theorem prefix_sum_from_last (acc : Nat) (counts : List Nat) (h : counts ≠ []) :
    (prefix_sum_from acc counts).getD (counts.length - 1) 0 =
      acc + counts.dropLast.sum := by
  induction counts generalizing acc with
  | nil => exact absurd rfl h
  | cons x xs ih =>
      cases xs with
      | nil => simp [prefix_sum_from]
      | cons y ys =>
          have hne : (y :: ys) ≠ [] := by simp
          have := ih (acc + x) hne
          simp only [prefix_sum_from, List.length_cons, Nat.add_sub_cancel] at *
          rw [List.getD_cons_succ, this]
          have hd : (x :: y :: ys).dropLast = x :: (y :: ys).dropLast := by
            simp [List.dropLast]
          rw [hd]
          simp
          omega

/-- C2 counterexample: with a single splat hitting one tile
(`counts = [1]`), the code's `num_intersections` — the last element of the
exclusive scan — is `0`, while the sum of all tile-hit counts (the claim's
"last element plus its own count") is `1`. -/
theorem num_intersections_counterexample :
    num_intersections [1] = 0 ∧ ([1] : List Nat).sum = 1 ∧
      (prefix_sum [1]).getD 0 0 + ([1] : List Nat).getLastD 0 = 1 ∧
      ¬ num_intersections [1] = ([1] : List Nat).sum := by
  refine ⟨rfl, rfl, rfl, ?_⟩
  intro h
  simp [num_intersections, prefix_sum, prefix_sum_from] at h

/-- C2 amended: the intersection count used by the forward pass equals the
last element of the exclusive prefix sum, i.e. the sum of all tile-hit
counts **except the last splat's own count**; it equals the full sum exactly
when the last count is zero (in particular whenever the last primitive is
not visible, since only the visible prefix of the count array is
non-zero). -/
theorem num_intersections_eq_dropLast_sum (counts : List Nat) (h : counts ≠ []) :
    num_intersections counts = counts.dropLast.sum ∧
      (num_intersections counts = counts.sum ↔ counts.getLast h = 0) := by
  have hlast : num_intersections counts = counts.dropLast.sum := by
    have := prefix_sum_from_last 0 counts h
    simpa [num_intersections, prefix_sum] using this
  refine ⟨hlast, ?_⟩
  have hsplit : counts.dropLast.sum + counts.getLast h = counts.sum := by
    conv_rhs => rw [← List.dropLast_append_getLast h]
    simp
  rw [hlast]
  omega

/-- Witness for `num_intersections_eq_dropLast_sum` at `counts = [2, 3]`. -/
theorem num_intersections_eq_dropLast_sum_witness :
    ([2, 3] : List Nat) ≠ [] ∧
      (num_intersections [2, 3] = ([2, 3] : List Nat).dropLast.sum ∧
        (num_intersections [2, 3] = ([2, 3] : List Nat).sum ↔
          ([2, 3] : List Nat).getLast (by decide) = 0)) :=
  ⟨by decide, num_intersections_eq_dropLast_sum [2, 3] (by decide)⟩

/-! ### Theorems: C4 (fail-fast validation before dispatch) -/

/-- C4 counterexample: a zero-primitive call (consistent `[0, …]` shapes, a
valid SH count of 1, a 32×32 image, a well-formed camera) is an invalid
configuration in the spec's sense, yet `render_forward` does not fail before
dispatching: its first event is the `ProjectSplats` dispatch.  The same
holds for a zero-area image and for a malformed camera, neither of which is
examined by any pre-dispatch check. -/
theorem zero_primitives_reach_dispatch :
    invalid_config
        ⟨[0, 3], [0, 3], [0, 4], [0, 1, 3], [0], 32, 32, true⟩ ∧
      fails_before_dispatch
          (render_forward_events
            ⟨[0, 3], [0, 3], [0, 4], [0, 1, 3], [0], 32, 32, true⟩) = false ∧
      (render_forward_events
            ⟨[0, 3], [0, 3], [0, 4], [0, 1, 3], [0], 32, 32, true⟩).head? =
        some (FwdEvent.dispatch "ProjectSplats") :=
  ⟨Or.inl rfl, rfl, rfl⟩

/-- C4 amended: the forward entry point fails before any GPU dispatch
exactly when the tensor-dimension check or the SH-coefficient-count check
fails; zero primitives, a zero-area image, and the camera contents are not
validated before dispatch (they do not appear in the condition). -/
theorem pre_dispatch_validation (inp : ForwardInputs) :
    fails_before_dispatch (render_forward_events inp) = true ↔
      (dim_check inp = false ∨
        sh_degree_from_coeffs (sh_coeff_count inp) = none) := by
  cases hdc : dim_check inp with
  | false => simp [render_forward_events, fails_before_dispatch, hdc]
  | true =>
      cases hsh : sh_degree_from_coeffs (sh_coeff_count inp) with
      | none => simp [render_forward_events, fails_before_dispatch, hdc, hsh]
      | some d => simp [render_forward_events, fails_before_dispatch, hdc, hsh]

/-! ### Theorems: C5 (terminal index only in float mode) -/

/-- C5: the per-pixel final-index buffer is bound to the rasterize kernel,
and is among the buffers it writes, exactly when the float/differentiable
mode is selected (`raster_u32 = false`); the kernel writes only bound
buffers; and the allocated buffer is returned in the aux bundle in both
modes. -/
theorem final_index_float_mode_only :
    ∀ raster_u32 : Bool,
      (RenderBuffer.finalIndex ∈ rasterize_bindings raster_u32 ↔
        raster_u32 = false) ∧
      (RenderBuffer.finalIndex ∈ rasterize_writes raster_u32 ↔
        raster_u32 = false) ∧
      (∀ b ∈ rasterize_writes raster_u32, b ∈ rasterize_bindings raster_u32) ∧
      RenderBuffer.finalIndex ∈ render_aux_buffers := by
  decide

/-! ### Theorems: C6 (dense zero gradients for untouched primitives) -/

/-- Accumulating into a buffer leaves every index that no update names at
its initial value. -/
theorem accumulate_fold_untouched (updates : List (Nat × Int))
    (init : List Int) (i : Nat) (hinit : init.getD i 0 = 0)
    (hupd : ∀ u ∈ updates, u.1 ≠ i) :
    (updates.foldl (fun g u => g.set u.1 (g.getD u.1 0 + u.2)) init).getD i 0
      = 0 := by
  induction updates generalizing init with
  | nil => simpa using hinit
  | cons u us ih =>
      simp only [List.foldl_cons]
      refine ih (init.set u.1 (init.getD u.1 0 + u.2)) ?_ ?_
      · have hne : u.1 ≠ i := hupd u (by simp)
        rw [List.getD_eq_getElem?_getD, List.getElem?_set_ne hne,
          ← List.getD_eq_getElem?_getD]
        exact hinit
      · intro v hv
        exact hupd v (by simp [hv])

/-- Gradient accumulation never changes the buffer length. -/
theorem accumulate_grads_length (num_points : Nat)
    (updates : List (Nat × Int)) :
    (accumulate_grads num_points updates).length = num_points := by
  rw [accumulate_grads]
  have h : ∀ (init : List Int),
      (updates.foldl (fun g u => g.set u.1 (g.getD u.1 0 + u.2)) init).length
        = init.length := by
    induction updates with
    | nil => intro init; rfl
    | cons u us ih =>
        intro init
        simp only [List.foldl_cons]
        rw [ih]
        simp
  rw [h]
  simp

/-- C6: every gradient buffer is a dense, zero-initialized array of length
`num_points` (the original primitive count), and a primitive whose global id
receives no contribution from the backward kernels — any primitive not
touched by the forward pass — keeps a gradient of exactly zero.  This
instantiates to each of the six output buffers (position, log-scale,
quaternion, SH coefficients, opacity logit, screen xy) and each of their
components. -/
theorem backward_untouched_grads_zero (num_points : Nat)
    (updates : List (Nat × Int)) (touched : List Nat)
    (hupd : ∀ u ∈ updates, u.1 ∈ touched) :
    (accumulate_grads num_points updates).length = num_points ∧
      accumulate_grads num_points [] = List.replicate num_points 0 ∧
      ∀ i, i ∉ touched → (accumulate_grads num_points updates).getD i 0 = 0 := by
  refine ⟨accumulate_grads_length num_points updates, rfl, ?_⟩
  intro i hi
  rw [accumulate_grads]
  refine accumulate_fold_untouched updates _ i ?_ ?_
  · rw [List.getD_eq_getElem?_getD, List.getElem?_replicate]
    split <;> rfl
  · intro u hu
    intro hcontra
    exact hi (hcontra ▸ hupd u hu)

/-- Witness for `backward_untouched_grads_zero`: three primitives of which
only global id 1 is touched (one accumulated contribution of 5). -/
theorem backward_untouched_grads_zero_witness :
    (∀ u ∈ ([(1, 5)] : List (Nat × Int)), u.1 ∈ ([1] : List Nat)) ∧
      ((accumulate_grads 3 [(1, 5)]).length = 3 ∧
        accumulate_grads 3 [] = List.replicate 3 0 ∧
        ∀ i, i ∉ ([1] : List Nat) →
          (accumulate_grads 3 [(1, 5)]).getD i 0 = 0) :=
  ⟨by decide, backward_untouched_grads_zero 3 [(1, 5)] [1] (by decide)⟩

/-! ### Theorems: C10 (autodiff backend refines the primary backend) -/

/-- C10: for every forward implementation and every argument tuple, the
image computed by the autodiff backend's `render_splats` — tracked or
untracked — is exactly the image of the primary backend's `render_splats`
on the unwrapped arguments, and the aux bundle agrees as well. -/
theorem autodiff_forward_agrees {Cam Img Aux T : Type}
    (render_forward : Cam → Nat × Nat → T → T → T → T → T → Bool → Img × Aux)
    (camera : Cam) (img_size : Nat × Nat)
    (means xy_dummy log_scales quats sh_coeffs raw_opacity : ADTensor T)
    (render_u32 tracked : Bool) :
    (render_splats_autodiff render_forward camera img_size means xy_dummy
        log_scales quats sh_coeffs raw_opacity render_u32 tracked).1.value =
      (render_splats_primary render_forward camera img_size means.value
        xy_dummy.value log_scales.value quats.value sh_coeffs.value
        raw_opacity.value render_u32).1 ∧
    (render_splats_autodiff render_forward camera img_size means xy_dummy
        log_scales quats sh_coeffs raw_opacity render_u32 tracked).2 =
      (render_splats_primary render_forward camera img_size means.value
        xy_dummy.value log_scales.value quats.value sh_coeffs.value
        raw_opacity.value render_u32).2 := by
  cases tracked <;> exact ⟨rfl, rfl⟩

/-- Witness for `intersection_capacity_truncation`: two primitives over four
tiles with one in-range and one out-of-range write. -/
theorem intersection_capacity_truncation_witness :
    ((2 : Nat) < 2 ^ 32 ∧ (4 : Nat) < 2 ^ 32 ∧
        (List.replicate 8 ((0 : Nat), (0 : Nat))).length = max_intersects 2 4) ∧
      (max_intersects 2 4 = min (2 * 4) (128 * 65535) ∧
        (map_gaussians_to_intersect (List.replicate 8 (0, 0))
            [(0, 3, 0), (9, 2, 1)]).length = max_intersects 2 4 ∧
        map_gaussians_to_intersect (List.replicate 8 (0, 0)) [(0, 3, 0), (9, 2, 1)] =
          map_gaussians_to_intersect (List.replicate 8 (0, 0))
            ([(0, 3, 0), (9, 2, 1)].filter (fun e => e.1 < max_intersects 2 4)) ∧
        intersect_stage (List.replicate 8 (0, 0)) [(0, 3, 0), (9, 2, 1)] =
          Except.ok
            (map_gaussians_to_intersect (List.replicate 8 (0, 0))
              [(0, 3, 0), (9, 2, 1)])) :=
  ⟨⟨by norm_num, by norm_num, by decide⟩,
    intersection_capacity_truncation 2 4 (by norm_num) (by norm_num)
      (List.replicate 8 (0, 0)) [(0, 3, 0), (9, 2, 1)] (by decide)⟩

end BrushRender
